import Mathlib

/-!
Verification of the backoff/polling core of the `dash-core` toolkit:
the `ExponentialBackoff` bounded retry executor and the `AdaptivePoller`
adaptive polling loop, shallowly embedded from the TypeScript sources.

Numbers are modelled as rationals (`ℚ`); all durations are carried as
their millisecond values.
-/

namespace DashCore

/-- A `TimeSpan` (`src/web/rest-request.ts`) wraps a non-negative number
of milliseconds `ms`: its constructor throws on a negative argument,
`fromMilliseconds` calls that constructor, `totalMilliseconds` returns
`ms`, and `valueOf` returns `ms`, so JavaScript relational operators such
as the executor's `currentDelay <= maxDelay` compare instances by their
millisecond value.  A constructed `TimeSpan` is represented here by that
millisecond value as a rational; the constructor's negative-argument throw
is modelled at the one construction site the claims reach
(`getUpdatedDelay`). -/
abbrev Millis : Type := ℚ

/-- Configuration of `ExponentialBackoff` (`ExponentialBackoffOptions` in
the source), durations in milliseconds. -/
structure ExponentialBackoffOptions where
  initialDelay : Millis
  maxDelay : Millis
  factor : ℚ
  jitter : Option Millis

/-- Embedding of `ExponentialBackoff.getUpdatedDelay`:
`newDelay = currentDelay * factor + (jitter ? random() * jitter : 0)`,
returned through `TimeSpan.fromMilliseconds`, whose constructor throws
when `newDelay` is negative — modelled as `none`.  The `Math.random()`
draw is passed explicitly as `draw`. -/
def getUpdatedDelay (opts : ExponentialBackoffOptions) (draw : ℚ)
    (currentDelay : Millis) : Option Millis :=
  let jitterAdd : ℚ :=
    match opts.jitter with
    | some j => draw * j
    | none => 0
  let newDelay := currentDelay * opts.factor + jitterAdd
  if newDelay < 0 then none else some newDelay

/-- Outcome of one `execute` call: the promise resolves with a value,
rejects with `lastError` (`null` = `none` when no attempt ran), or —
`thrown` — the `TimeSpan` constructor threw inside the async promise
executor (negative `newDelay`), in which case the promise returned by
`execute` never settles. -/
inductive ExecResult (ε α : Type) where
  | resolved : α → ExecResult ε α
  | rejected : Option ε → ExecResult ε α
  | thrown : ExecResult ε α
deriving DecidableEq, Repr

/-- Embedding of the retry loop inside `ExponentialBackoff.execute`.
`op k` is the result of the `k`-th invocation of the operation, `draws k`
the `Math.random()` draw used after the `k`-th failure.  The loop
`while (currentDelay <= maxDelay)` is modelled with explicit `fuel`
(`none` = fuel exhausted before the loop settled); alongside the result we
return the list of delays slept (`await Wait(currentDelay)` after each
failed attempt, before the delay update — so a `thrown` run has already
slept the delay of its last attempt). -/
def executeAux (opts : ExponentialBackoffOptions) (op : Nat → Except ε α)
    (draws : Nat → ℚ) :
    Nat → Nat → Millis → Option ε → Option (ExecResult ε α × List Millis)
  | 0, _, _, _ => none
  | fuel + 1, k, currentDelay, lastError =>
    if currentDelay ≤ opts.maxDelay then
      match op k with
      | Except.ok a => some (ExecResult.resolved a, [])
      | Except.error e =>
        match getUpdatedDelay opts (draws k) currentDelay with
        | some newDelay =>
          Option.map (fun rs => (rs.1, currentDelay :: rs.2))
            (executeAux opts op draws fuel (k + 1) newDelay (some e))
        | none => some (ExecResult.thrown, [currentDelay])
    else
      some (ExecResult.rejected lastError, [])

/-- Embedding of `ExponentialBackoff.execute`: the loop starts at attempt
index 0 with `currentDelay = initialDelay` and `lastError = null`. -/
def execute (opts : ExponentialBackoffOptions) (op : Nat → Except ε α)
    (draws : Nat → ℚ) (fuel : Nat) : Option (ExecResult ε α × List Millis) :=
  executeAux opts op draws fuel 0 opts.initialDelay none

/-- Number of attempts a finished `execute` run made: one per slept delay
(each failed attempt sleeps once) plus one if it resolved. -/
def attemptsMade : ExecResult ε α × List Millis → Nat
  | (ExecResult.resolved _, sleeps) => sleeps.length + 1
  | (ExecResult.rejected _, sleeps) => sleeps.length
  | (ExecResult.thrown, sleeps) => sleeps.length

/-- The `lastError` variable after `m` further failed attempts starting at
attempt index `k`, given its value `last` beforehand. -/
def lastAfter (errs : Nat → ε) (last : Option ε) (k : Nat) : Nat → Option ε
  | 0 => last
  | m + 1 => some (errs (k + m))

lemma range_map_shift (g : Nat → β) (k m : Nat) :
    g k :: (List.range m).map (fun j => g (k + 1 + j)) =
      (List.range (m + 1)).map (fun j => g (k + j)) := by
  rw [List.range_succ_eq_map, List.map_cons, List.map_map]
  refine congrArg₂ _ (by rw [Nat.add_zero]) ?_
  rw [List.map_eq_map_iff]
  intro j _
  simp only [Function.comp_apply, Nat.succ_eq_add_one]
  exact congrArg g (by omega)

/-- Running `executeAux` from attempt index `k` across `m` consecutive
failed attempts whose delay updates all succeed (no constructor throw),
with `D` the trajectory of `currentDelay` values: the run sleeps the `m`
delays `D k, …, D (k+m-1)` and continues at attempt `k+m` with delay
`D (k+m)` and the updated `lastError`. -/
lemma executeAux_steps (opts : ExponentialBackoffOptions) (op : Nat → Except ε α)
    (errs : Nat → ε) (draws : Nat → ℚ) (D : Nat → Millis) (m : Nat) :
    ∀ (k fuel : Nat) (last : Option ε), m + 1 ≤ fuel →
    (∀ j, j < m → op (k + j) = Except.error (errs (k + j))) →
    (∀ j, j < m → D (k + j) ≤ opts.maxDelay) →
    (∀ j, j < m → getUpdatedDelay opts (draws (k + j)) (D (k + j)) = some (D (k + j + 1))) →
    executeAux opts op draws fuel k (D k) last =
      Option.map
        (fun rs => (rs.1,
          ((List.range m).map (fun j => D (k + j))) ++ rs.2))
        (executeAux opts op draws (fuel - m) (k + m) (D (k + m))
          (lastAfter errs last k m)) := by
  induction m with
  | zero =>
    intro k fuel last _ _ _ _
    simp only [List.range_zero, List.map_nil, List.nil_append, Nat.sub_zero,
      Nat.add_zero, lastAfter]
    cases executeAux opts op draws fuel k (D k) last <;> simp
  | succ m ih =>
    intro k fuel last hfuel hop hle hupd
    cases fuel with
    | zero => omega
    | succ f =>
      have hguard : D k ≤ opts.maxDelay := by
        have := hle 0 (Nat.succ_pos m)
        simpa using this
      have hopk : op k = Except.error (errs k) := by
        have := hop 0 (Nat.succ_pos m)
        simpa using this
      have hupdk : getUpdatedDelay opts (draws k) (D k) = some (D (k + 1)) := by
        have := hupd 0 (Nat.succ_pos m)
        simpa using this
      have hstep : executeAux opts op draws (f + 1) k (D k) last =
          Option.map (fun rs => (rs.1, D k :: rs.2))
            (executeAux opts op draws f (k + 1) (D (k + 1))
              (some (errs k))) := by
        rw [executeAux, if_pos hguard, hopk, hupdk]
      rw [hstep, ih (k + 1) f (some (errs k)) (by omega)
        (fun j hj => by
          have := hop (j + 1) (by omega)
          simpa [Nat.add_assoc, Nat.add_comm 1 j] using this)
        (fun j hj => by
          have := hle (j + 1) (by omega)
          simpa [Nat.add_assoc, Nat.add_comm 1 j] using this)
        (fun j hj => by
          have := hupd (j + 1) (by omega)
          simpa [Nat.add_assoc, Nat.add_comm 1 j] using this)]
      rw [Option.map_map]
      have hlast : lastAfter errs (some (errs k)) (k + 1) m =
          lastAfter errs last k (m + 1) := by
        cases m with
        | zero => simp [lastAfter]
        | succ i =>
          simp only [lastAfter]
          exact congrArg (fun x => some (errs x)) (by omega)
      have hidx : k + 1 + m = k + (m + 1) := by omega
      rw [hlast, hidx]
      have hsub : f - m = f + 1 - (m + 1) := by omega
      rw [hsub]
      refine congrArg₂ _ ?_ rfl
      funext rs
      simp only [Function.comp_apply]
      refine congrArg _ ?_
      rw [← List.cons_append]
      exact congrArg (fun l => l ++ rs.2) (range_map_shift (fun j => D j) k m)

/-- Claim C3: with an operation failing on every attempt, `execute` makes
attempts exactly while `currentDelay ≤ maxDelay` (sleeping each of those
delays) and, once the updated delay exceeds `maxDelay`, it stops and
rejects with the error recorded from the last (the `n`-th) attempt.  `D`
is the trajectory of `currentDelay` values; the step hypothesis says each
update succeeds (the `TimeSpan` constructor does not throw), as is the
case for every non-negative configuration. -/
theorem execute_rejects_with_lastError (opts : ExponentialBackoffOptions)
    (op : Nat → Except ε α) (errs : Nat → ε) (draws : Nat → ℚ)
    (D : Nat → Millis) (n fuel : Nat)
    (hfail : ∀ k, op k = Except.error (errs k))
    (hD0 : D 0 = opts.initialDelay)
    (hDstep : ∀ k, k < n → getUpdatedDelay opts (draws k) (D k) = some (D (k + 1)))
    (hn : 0 < n)
    (hle : ∀ k, k < n → D k ≤ opts.maxDelay)
    (hgt : opts.maxDelay < D n)
    (hfuel : n + 1 ≤ fuel) :
    execute opts op draws fuel =
      some (ExecResult.rejected (some (errs (n - 1))), (List.range n).map D) := by
  unfold execute
  have h0 : executeAux opts op draws fuel 0 (D 0) none =
      Option.map
        (fun rs => (rs.1,
          ((List.range n).map (fun j => D (0 + j))) ++ rs.2))
        (executeAux opts op draws (fuel - n) (0 + n) (D (0 + n))
          (lastAfter errs none 0 n)) :=
    executeAux_steps opts op errs draws D n 0 fuel none hfuel
      (fun j _ => hfail (0 + j)) (fun j hj => hle (0 + j) (by omega))
      (fun j hj => hDstep (0 + j) (by omega))
  rw [hD0] at h0
  rw [h0]
  obtain ⟨f, hf⟩ : ∃ f, fuel - n = f + 1 := ⟨fuel - n - 1, by omega⟩
  rw [hf, Nat.zero_add]
  rw [executeAux, if_neg (by exact not_le.mpr hgt)]
  obtain ⟨i, hi⟩ : ∃ i, n = i + 1 := ⟨n - 1, by omega⟩
  subst hi
  simp [lastAfter]

/-- Claim C4: the loop condition `currentDelay <= maxDelay` is checked
before each attempt, so whenever `initialDelay ≤ maxDelay` (including
equality) any completed `execute` run has made at least one attempt: the
very first attempt always runs. -/
theorem execute_first_attempt_runs (opts : ExponentialBackoffOptions)
    (op : Nat → Except ε α) (draws : Nat → ℚ) (fuel : Nat)
    (res : ExecResult ε α × List Millis)
    (hinit : opts.initialDelay ≤ opts.maxDelay)
    (hres : execute opts op draws fuel = some res) :
    1 ≤ attemptsMade res := by
  unfold execute at hres
  cases fuel with
  | zero => exact absurd hres (by simp [executeAux])
  | succ f =>
    rw [executeAux, if_pos hinit] at hres
    cases hop : op 0 with
    | ok a =>
      rw [hop] at hres
      cases hres
      simp [attemptsMade]
    | error e =>
      rw [hop] at hres
      cases hupd : getUpdatedDelay opts (draws 0) opts.initialDelay with
      | none =>
        rw [hupd] at hres
        cases hres
        simp [attemptsMade]
      | some newDelay =>
        rw [hupd] at hres
        obtain ⟨rs, _, hrs⟩ := Option.map_eq_some'.mp hres
        subst hrs
        cases h1 : rs.1 <;> simp [attemptsMade]

/-- Claim C8: with an operation failing on the first `N - 1` attempts and
succeeding on the `N`-th, each earlier delay within `maxDelay` and each
delay update succeeding, `execute` resolves with the `N`-th attempt's
value and sleeps exactly `N - 1` delays (one per failed attempt, none
after the success).  `D` is the trajectory of `currentDelay` values. -/
theorem execute_resolves_nth_attempt (opts : ExponentialBackoffOptions)
    (op : Nat → Except ε α) (errs : Nat → ε) (draws : Nat → ℚ) (a : α)
    (D : Nat → Millis) (N fuel : Nat)
    (hN : 0 < N)
    (hfailpre : ∀ k, k < N - 1 → op k = Except.error (errs k))
    (hsucc : op (N - 1) = Except.ok a)
    (hD0 : D 0 = opts.initialDelay)
    (hDstep : ∀ k, k < N - 1 → getUpdatedDelay opts (draws k) (D k) = some (D (k + 1)))
    (hle : ∀ k, k < N → D k ≤ opts.maxDelay)
    (hfuel : N ≤ fuel) :
    execute opts op draws fuel =
      some (ExecResult.resolved a, (List.range (N - 1)).map D) := by
  unfold execute
  have h0 : executeAux opts op draws fuel 0 (D 0) none =
      Option.map
        (fun rs => (rs.1,
          ((List.range (N - 1)).map (fun j => D (0 + j))) ++ rs.2))
        (executeAux opts op draws (fuel - (N - 1)) (0 + (N - 1))
          (D (0 + (N - 1))) (lastAfter errs none 0 (N - 1))) :=
    executeAux_steps opts op errs draws D (N - 1) 0 fuel none (by omega)
      (fun j hj => hfailpre (0 + j) (by omega))
      (fun j hj => hle (0 + j) (by omega))
      (fun j hj => hDstep (0 + j) (by omega))
  rw [hD0] at h0
  rw [h0]
  obtain ⟨f, hf⟩ : ∃ f, fuel - (N - 1) = f + 1 := ⟨fuel - (N - 1) - 1, by omega⟩
  rw [hf, Nat.zero_add]
  rw [executeAux, if_pos (hle (N - 1) (by omega)), hsucc]
  simp

/-- Concrete executor configuration for witnesses: `initialDelay = 1000ms`,
`maxDelay = 5000ms`, `factor = 2`, no jitter. -/
def wOpts : ExponentialBackoffOptions := ⟨1000, 5000, 2, none⟩

/-- Draw sequence for witnesses (irrelevant without jitter). -/
def wDraws : Nat → ℚ := fun _ => 0

/-- Error values for witnesses: attempt `k` fails with error `k`. -/
def wErrs : Nat → Nat := fun k => k

/-- An operation failing on every attempt. -/
def wOpFail : Nat → Except Nat Nat := fun k => Except.error k

/-- An operation failing on attempts 0 and 1 and succeeding with `42` on
attempt 2 (the third attempt, `N = 3`). -/
def wOpThird : Nat → Except Nat Nat :=
  fun k => if k < 2 then Except.error k else Except.ok 42

/-- The `currentDelay` trajectory of the witness runs: `1000 * 2 ^ k`. -/
def wDelays : Nat → ℚ := fun k => 1000 * 2 ^ k

/-- Witness for C3: with the concrete always-failing operation the delays
run `1000, 2000, 4000`, the update to `8000` exceeds `maxDelay = 5000`,
and `execute` rejects with the error of the last (third) attempt. -/
theorem execute_rejects_with_lastError_witness :
    execute wOpts wOpFail wDraws 4 =
      some (ExecResult.rejected (some 2), [1000, 2000, 4000]) := by
  have h := execute_rejects_with_lastError wOpts wOpFail wErrs wDraws wDelays 3 4
    (fun k => rfl)
    (by norm_num [wDelays, wOpts])
    (fun k hk => by
      interval_cases k <;> norm_num [getUpdatedDelay, wOpts, wDraws, wDelays])
    (by norm_num)
    (fun k hk => by interval_cases k <;> norm_num [wDelays, wOpts])
    (by norm_num [wDelays, wOpts])
    (by norm_num)
  rw [h]
  norm_num [wDelays, wErrs, List.range_succ]

/-- Witness for C4: with `initialDelay = maxDelay = 1000` and a failing
operation, the completed run still made one attempt. -/
theorem execute_first_attempt_runs_witness :
    (1000 : ℚ) ≤ 1000 ∧
    1 ≤ attemptsMade (ε := Nat) (α := Nat) (ExecResult.rejected (some 0), [1000]) := by
  refine ⟨by norm_num, ?_⟩
  exact execute_first_attempt_runs ⟨1000, 1000, 2, none⟩ wOpFail wDraws 2
    (ExecResult.rejected (some 0), [1000]) (by norm_num)
    (by norm_num [execute, executeAux, getUpdatedDelay, wOpFail, wDraws])

/-- Witness for C8: the operation succeeding on the third attempt resolves
with `42` after exactly two sleeps (`1000` and `2000`). -/
theorem execute_resolves_nth_attempt_witness :
    execute wOpts wOpThird wDraws 4 =
      some (ExecResult.resolved 42, [1000, 2000]) := by
  have h := execute_resolves_nth_attempt wOpts wOpThird wErrs wDraws 42 wDelays 3 4
    (by norm_num)
    (fun k hk => by interval_cases k <;> rfl)
    rfl
    (by norm_num [wDelays, wOpts])
    (fun k hk => by
      interval_cases k <;> norm_num [getUpdatedDelay, wOpts, wDraws, wDelays])
    (fun k hk => by interval_cases k <;> norm_num [wDelays, wOpts])
    (by norm_num)
  rw [h]
  norm_num [wDelays, List.range_succ]

/-- Claim C6: for every `TimeSpan`-valued `currentDelay` (hence `0 ≤ d`,
the constructor invariant of `src/web/rest-request.ts`) and factor
`f ≥ 1`, with no jitter the backoff calculator returns exactly
`currentDelay * factor` (and does not throw); with jitter `J > 0` and a
uniform draw in `[0, 1)` it returns a value in
`[currentDelay * factor, currentDelay * factor + J)`. -/
theorem getUpdatedDelay_spec (d f J draw : ℚ) (hd : 0 ≤ d) (hf : 1 ≤ f)
    (hJ : 0 < J) (hdraw0 : 0 ≤ draw) (hdraw1 : draw < 1) :
    (∀ opts : ExponentialBackoffOptions,
      opts.factor = f → opts.jitter = none →
        getUpdatedDelay opts draw d = some (d * f)) ∧
    (∀ opts : ExponentialBackoffOptions,
      opts.factor = f → opts.jitter = some J →
        ∃ r, getUpdatedDelay opts draw d = some r ∧
          d * f ≤ r ∧ r < d * f + J) := by
  have hdf : 0 ≤ d * f := mul_nonneg hd (le_trans zero_le_one hf)
  constructor
  · intro opts hfac hjit
    simp only [getUpdatedDelay, hjit, hfac, add_zero]
    rw [if_neg (not_lt.mpr hdf)]
  · intro opts hfac hjit
    refine ⟨d * f + draw * J, ?_, ?_, ?_⟩
    · have hadd : 0 ≤ d * f + draw * J :=
        add_nonneg hdf (mul_nonneg hdraw0 hJ.le)
      simp only [getUpdatedDelay, hjit, hfac]
      rw [if_neg (not_lt.mpr hadd)]
    · nlinarith [mul_nonneg hdraw0 hJ.le]
    · nlinarith [mul_lt_mul_of_pos_right hdraw1 hJ]

/-- Witness for C6: concrete instance `d = 100`, `f = 2`, `J = 50`,
`draw = 1/2`: without jitter the result is `some 200`, with jitter it is
`some 225`, inside `[200, 250)`. -/
theorem getUpdatedDelay_spec_witness :
    (0 : ℚ) ≤ 100 ∧ (1 : ℚ) ≤ 2 ∧ (0 : ℚ) < 50 ∧ (0 : ℚ) ≤ 1/2 ∧ (1/2 : ℚ) < 1 ∧
    getUpdatedDelay ⟨1000, 5000, 2, none⟩ (1/2) 100 = some (100 * 2) ∧
    getUpdatedDelay ⟨1000, 5000, 2, some 50⟩ (1/2) 100 = some 225 ∧
    (∃ r, getUpdatedDelay ⟨1000, 5000, 2, some 50⟩ (1/2) 100 = some r ∧
      100 * 2 ≤ r ∧ r < 100 * 2 + 50) := by
  refine ⟨by norm_num, by norm_num, by norm_num, by norm_num, by norm_num,
    ?_, by norm_num [getUpdatedDelay], ?_⟩
  · exact (getUpdatedDelay_spec 100 2 50 (1/2) (by norm_num) (by norm_num)
      (by norm_num) (by norm_num) (by norm_num)).1 ⟨1000, 5000, 2, none⟩ rfl rfl
  · exact (getUpdatedDelay_spec 100 2 50 (1/2) (by norm_num) (by norm_num)
      (by norm_num) (by norm_num) (by norm_num)).2 ⟨1000, 5000, 2, some 50⟩ rfl rfl

/-- Configuration of `AdaptivePoller` (`pollerOptions` in
`src/threading/adaptive-poller.ts`), durations in milliseconds.  The
optional logger is not part of the state; log messages are modelled as
emitted events. -/
structure PollerOptions where
  initialDelay : Millis
  maxDelay : Millis
  factor : ℚ
  resetPeriod : Millis
  linearStep : Millis

/-- Mutable fields of `AdaptivePoller`.  The operation and the two
callbacks are stored as optional reference identifiers (`Nat`), which is
all the claims observe about them. -/
structure PollerState where
  currentDelay : Millis
  lastErrorTime : Option ℚ
  polling : Bool
  operation : Option Nat
  onError : Option Nat
  onFail : Option Nat
deriving DecidableEq, Repr

/-- Messages the poller hands to its (optional) logger. -/
inductive LogEvent where
  | info : String → LogEvent
  | warning : String → LogEvent
deriving DecidableEq, Repr

/-- A callback invocation performed during a poll cycle. -/
inductive CallbackInvocation where
  | onErrorCb : CallbackInvocation
  | onFailCb : CallbackInvocation
deriving DecidableEq, Repr

/-- Outcome of one invocation of the polled operation. -/
inductive CycleOutcome where
  | success : CycleOutcome
  | failure : CycleOutcome
deriving DecidableEq, Repr

/-- Embedding of `AdaptivePoller.start`: if already polling it returns at
once (before any log call or state write); otherwise it stores the
operation and callbacks, resets `currentDelay` to `initialDelay`, kicks
off the loop and logs an info message. -/
def start (opts : PollerOptions) (s : PollerState) (operation : Nat)
    (onError onFail : Option Nat) : PollerState × List LogEvent :=
  if s.polling then (s, [])
  else
    ({ s with
        polling := true,
        operation := some operation,
        onError := onError,
        onFail := onFail,
        currentDelay := opts.initialDelay },
      [LogEvent.info "AdaptivePolling started"])

/-- The JavaScript truthiness test `!this.lastErrorTime` on the optional
numeric field: truthy-negative for `undefined` and for the number `0`. -/
def lastErrorFalsy : Option ℚ → Bool
  | none => true
  | some t => t == 0

/-- Embedding of the body of `AdaptivePoller.runPoll` for one executed
cycle (the `try`/`catch` around `await this.operation()`), at current time
`now` (`Date.now()`).  On success the delay decays linearly (floored at
`initialDelay`) when no failure is recorded or the reset period has
elapsed; on failure the delay is multiplied by `factor` and clamped at
`maxDelay`, invoking `onFail` at the clamp (`>=`) and `onError` otherwise
— each only when the corresponding optional callback is set.  Returns the
updated state and the callback invocations performed. -/
def runPollStep (opts : PollerOptions) (now : ℚ) (s : PollerState) :
    CycleOutcome → PollerState × List CallbackInvocation
  | CycleOutcome.success =>
    let cond : Bool :=
      match s.lastErrorTime with
      | none => true
      | some t => t == 0 || decide (opts.resetPeriod ≤ now - t)
    if cond then
      let decayed := max opts.initialDelay (s.currentDelay - opts.linearStep)
      ({ s with currentDelay := decayed }, [])
    else
      (s, [])
  | CycleOutcome.failure =>
    let grown := s.currentDelay * opts.factor
    if opts.maxDelay ≤ grown then
      ({ s with currentDelay := opts.maxDelay, lastErrorTime := some now },
        if s.onFail.isSome then [CallbackInvocation.onFailCb] else [])
    else
      ({ s with currentDelay := grown, lastErrorTime := some now },
        if s.onError.isSome then [CallbackInvocation.onErrorCb] else [])

/-- The state after a sequence of executed poll cycles, each given by its
`Date.now()` value and its outcome. -/
def runCycles (opts : PollerOptions) (s : PollerState) :
    List (ℚ × CycleOutcome) → PollerState
  | [] => s
  | (now, out) :: rest => runCycles opts (runPollStep opts now s out).1 rest

/-- The trajectory of `(state, invocations)` pairs over `n` consecutive
failing cycles starting from `s`, cycle `k` happening at time `times k`. -/
def failTrajectory (opts : PollerOptions) (times : Nat → ℚ) (s : PollerState) :
    Nat → List (PollerState × List CallbackInvocation)
  | 0 => []
  | n + 1 =>
    let step := runPollStep opts (times 0) s CycleOutcome.failure
    step :: failTrajectory opts (fun k => times (k + 1)) step.1 n

/-- Claim C1: on a failed cycle the delay is multiplied by `factor`; if
the product meets or exceeds `maxDelay` the delay is clamped to `maxDelay`
and only the fail callback is invoked, otherwise only the error callback —
exactly one invocation per failed cycle, never both. -/
theorem failure_cycle_single_callback (opts : PollerOptions) (now : ℚ)
    (s : PollerState)
    (hErr : s.onError.isSome = true) (hFail : s.onFail.isSome = true) :
    (opts.maxDelay ≤ s.currentDelay * opts.factor →
      (runPollStep opts now s CycleOutcome.failure).1.currentDelay = opts.maxDelay ∧
      (runPollStep opts now s CycleOutcome.failure).2 = [CallbackInvocation.onFailCb]) ∧
    (s.currentDelay * opts.factor < opts.maxDelay →
      (runPollStep opts now s CycleOutcome.failure).1.currentDelay =
        s.currentDelay * opts.factor ∧
      (runPollStep opts now s CycleOutcome.failure).2 = [CallbackInvocation.onErrorCb]) ∧
    (runPollStep opts now s CycleOutcome.failure).2.length = 1 := by
  refine ⟨fun h => ?_, fun h => ?_, ?_⟩
  · simp [runPollStep, h, hFail]
  · simp [runPollStep, not_le.mpr h, hErr]
  · by_cases h : opts.maxDelay ≤ s.currentDelay * opts.factor
    · simp [runPollStep, h, hFail]
    · simp [runPollStep, h, hErr]

/-- Concrete poller configuration for witnesses: `initialDelay = 1000ms`,
`maxDelay = 5000ms`, `factor = 2`, `resetPeriod = 300000ms`,
`linearStep = 200ms`. -/
def pOpts : PollerOptions := ⟨1000, 5000, 2, 300000, 200⟩

/-- A running poller state with `currentDelay = 4000ms`, both callbacks
set, no recorded failure. -/
def pStateHigh : PollerState := ⟨4000, none, true, some 1, some 2, some 3⟩

/-- Witness for C1: from `currentDelay = 4000`, a failure multiplies to
`8000 ≥ 5000`, clamps to `5000` and invokes exactly the fail callback. -/
theorem failure_cycle_single_callback_witness :
    (runPollStep pOpts 50 pStateHigh CycleOutcome.failure).1.currentDelay = 5000 ∧
    (runPollStep pOpts 50 pStateHigh CycleOutcome.failure).2 =
      [CallbackInvocation.onFailCb] ∧
    (runPollStep pOpts 50 pStateHigh CycleOutcome.failure).2.length = 1 := by
  have h := failure_cycle_single_callback pOpts 50 pStateHigh rfl rfl
  refine ⟨?_, ?_, h.2.2⟩
  · exact (h.1 (by norm_num [pOpts, pStateHigh])).1
  · exact (h.1 (by norm_num [pOpts, pStateHigh])).2

/-- Claim C7: on a successful cycle the delay decreases by `linearStep`
floored at `initialDelay` when no failure was ever recorded or at least
`resetPeriod` has elapsed since the last one, and is unchanged otherwise.
Failure timestamps come from `Date.now()` and are positive. -/
theorem success_cycle_linear_decay (opts : PollerOptions) (now : ℚ)
    (s : PollerState)
    (ht : ∀ t, s.lastErrorTime = some t → 0 < t) :
    (s.lastErrorTime = none →
      (runPollStep opts now s CycleOutcome.success).1.currentDelay =
        max opts.initialDelay (s.currentDelay - opts.linearStep)) ∧
    (∀ t, s.lastErrorTime = some t →
      (opts.resetPeriod ≤ now - t →
        (runPollStep opts now s CycleOutcome.success).1.currentDelay =
          max opts.initialDelay (s.currentDelay - opts.linearStep)) ∧
      (now - t < opts.resetPeriod →
        (runPollStep opts now s CycleOutcome.success).1.currentDelay =
          s.currentDelay)) := by
  constructor
  · intro hnone
    simp [runPollStep, hnone]
  · intro t hsome
    have htpos : ¬ (t == 0) = true := by
      simpa using ne_of_gt (ht t hsome)
    constructor
    · intro hreset
      simp [runPollStep, hsome, htpos, hreset]
    · intro hreset
      simp [runPollStep, hsome, htpos, not_le.mpr hreset]

/-- Poller configuration for the C7 witness: `initialDelay = 1000ms`,
`linearStep = 200ms`, `resetPeriod = 0ms`. -/
def c7Opts : PollerOptions := ⟨1000, 5000, 2, 0, 200⟩

/-- A poller state at `currentDelay = 1800ms` after prior failures, the
last one at time `5`. -/
def c7State : PollerState := ⟨1800, some 5, true, some 1, some 2, some 3⟩

/-- Witness for C7: with `initialDelay = 1000`, `linearStep = 200`,
`resetPeriod = 0` and `currentDelay = 1800`, one success at time `10`
yields `max (1000, 1800 - 200) = 1600`. -/
theorem success_cycle_linear_decay_witness :
    (runPollStep c7Opts 10 c7State CycleOutcome.success).1.currentDelay = 1600 := by
  have h := success_cycle_linear_decay c7Opts 10 c7State
    (fun t htt => by
      rw [show c7State.lastErrorTime = some 5 from rfl] at htt
      rw [show t = 5 from (Option.some_inj.mp htt).symm]
      norm_num)
  have h5 := (h.2 5 rfl).1 (by norm_num [c7Opts])
  rw [h5]
  norm_num [c7Opts, c7State]

/-- A poller state that is already running (`polling = true`), with a
stored operation reference `9` and `currentDelay = 4321ms`. -/
def c9Running : PollerState := ⟨4321, some 7, true, some 9, some 2, some 3⟩

/-- Counterexample to C9: calling `start` on an already-running poller
returns before any log call, so the emitted log list is empty — in
particular no warning is logged, contrary to the claim.  (The state is
indeed left unchanged.) -/
theorem start_while_running_no_warning :
    start pOpts c9Running 7 (some 8) (some 9) = (c9Running, []) := by
  simp [start, c9Running]

/-- Claim C9 (amended): calling `start` while the poller is already
running is a silent no-op: it emits no log message at all (in particular
no warning), never throws, starts no second loop, and leaves the whole
state — operation reference, callbacks, `currentDelay`, `polling` —
unchanged. -/
theorem start_while_running_noop (opts : PollerOptions) (s : PollerState)
    (operation : Nat) (onErrorRef onFailRef : Option Nat)
    (h : s.polling = true) :
    start opts s operation onErrorRef onFailRef = (s, []) := by
  simp [start, h]

/-- Witness for amended C9: the concrete running state is returned intact
with no log output. -/
theorem start_while_running_noop_witness :
    start pOpts c9Running 11 none (some 4) = (c9Running, []) :=
  start_while_running_noop pOpts c9Running 11 none (some 4) rfl

/-- One executed poll cycle keeps `currentDelay` inside
`[initialDelay, maxDelay]`, for any outcome and any clock value, provided
`0 ≤ initialDelay ≤ maxDelay`, `0 ≤ linearStep` and `1 ≤ factor`. -/
lemma runPollStep_delay_bounds (opts : PollerOptions) (now : ℚ)
    (s : PollerState) (out : CycleOutcome)
    (h0 : 0 ≤ opts.initialDelay) (hstep : 0 ≤ opts.linearStep)
    (him : opts.initialDelay ≤ opts.maxDelay) (hfac : 1 ≤ opts.factor)
    (hlo : opts.initialDelay ≤ s.currentDelay)
    (hhi : s.currentDelay ≤ opts.maxDelay) :
    opts.initialDelay ≤ (runPollStep opts now s out).1.currentDelay ∧
      (runPollStep opts now s out).1.currentDelay ≤ opts.maxDelay := by
  cases out with
  | success =>
    by_cases hcond : (match s.lastErrorTime with
      | none => true
      | some t => t == 0 || decide (opts.resetPeriod ≤ now - t)) = true
    · constructor
      · simp only [runPollStep, hcond, if_pos]
        exact le_max_left _ _
      · simp only [runPollStep, hcond, if_pos]
        exact max_le him (by linarith)
    · simp only [runPollStep, if_neg hcond]
      exact ⟨hlo, hhi⟩
  | failure =>
    by_cases hclamp : opts.maxDelay ≤ s.currentDelay * opts.factor
    · simp only [runPollStep, if_pos hclamp]
      exact ⟨him, le_refl _⟩
    · simp only [runPollStep, if_neg hclamp]
      constructor
      · exact hlo.trans (le_mul_of_one_le_right (h0.trans hlo) hfac)
      · exact le_of_lt (not_le.mp hclamp)

lemma runCycles_delay_bounds (opts : PollerOptions)
    (h0 : 0 ≤ opts.initialDelay) (hstep : 0 ≤ opts.linearStep)
    (him : opts.initialDelay ≤ opts.maxDelay) (hfac : 1 ≤ opts.factor) :
    ∀ (trace : List (ℚ × CycleOutcome)) (s : PollerState),
      opts.initialDelay ≤ s.currentDelay → s.currentDelay ≤ opts.maxDelay →
      opts.initialDelay ≤ (runCycles opts s trace).currentDelay ∧
        (runCycles opts s trace).currentDelay ≤ opts.maxDelay := by
  intro trace
  induction trace with
  | nil => intro s hlo hhi; exact ⟨hlo, hhi⟩
  | cons hd tl ih =>
    intro s hlo hhi
    obtain ⟨h1, h2⟩ :=
      runPollStep_delay_bounds opts hd.1 s hd.2 h0 hstep him hfac hlo hhi
    exact ih _ h1 h2

/-- Claim C10: with `0 ≤ initialDelay ≤ maxDelay`, `0 ≤ linearStep` and
`factor ≥ 1`, `currentDelay` lies in `[initialDelay, maxDelay]` after
`start` (which resets it to `initialDelay`) and after every executed poll
cycle, whatever the outcomes and clock readings. -/
theorem poller_delay_invariant (opts : PollerOptions) (s : PollerState)
    (operation : Nat) (onErrorRef onFailRef : Option Nat)
    (trace : List (ℚ × CycleOutcome))
    (h0 : 0 ≤ opts.initialDelay) (hstep : 0 ≤ opts.linearStep)
    (him : opts.initialDelay ≤ opts.maxDelay) (hfac : 1 ≤ opts.factor)
    (hidle : s.polling = false) :
    opts.initialDelay ≤
      (runCycles opts (start opts s operation onErrorRef onFailRef).1 trace).currentDelay ∧
    (runCycles opts (start opts s operation onErrorRef onFailRef).1 trace).currentDelay ≤
      opts.maxDelay := by
  have hstart : (start opts s operation onErrorRef onFailRef).1.currentDelay =
      opts.initialDelay := by
    simp [start, hidle]
  exact runCycles_delay_bounds opts h0 hstep him hfac trace _
    (le_of_eq hstart.symm) (hstart.symm ▸ him)

/-- An idle poller state used to start the C10 witness session. -/
def c10Idle : PollerState := ⟨9999, some 3, false, none, none, none⟩

/-- Witness for C10: starting from an idle state and running a failure at
time `10` and a success at time `20` keeps the delay within
`[1000, 5000]`. -/
theorem poller_delay_invariant_witness :
    (1000 : ℚ) ≤
      (runCycles pOpts (start pOpts c10Idle 1 (some 2) (some 3)).1
        [(10, CycleOutcome.failure), (20, CycleOutcome.success)]).currentDelay ∧
    (runCycles pOpts (start pOpts c10Idle 1 (some 2) (some 3)).1
        [(10, CycleOutcome.failure), (20, CycleOutcome.success)]).currentDelay ≤
      5000 := by
  have h := poller_delay_invariant pOpts c10Idle 1 (some 2) (some 3)
    [(10, CycleOutcome.failure), (20, CycleOutcome.success)]
    (by norm_num [pOpts]) (by norm_num [pOpts]) (by norm_num [pOpts])
    (by norm_num [pOpts]) rfl
  simpa [pOpts] using h

/-- Clock values for the C2 scenario: the `k`-th failing cycle happens at
time `k + 1`. -/
def c2Times : Nat → ℚ := fun k => (k : ℚ) + 1

/-- The C2 start state: a running poller at `currentDelay = 1000ms` with
both callbacks set and no recorded failure (as right after `start` with
`initialDelay = 1000ms`). -/
def c2Start : PollerState := ⟨1000, none, true, some 1, some 2, some 3⟩

/-- Counterexample to C2: with `initialDelay = 1000`, `maxDelay = 5000`,
`factor = 2` and no jitter, the fail callback fires already on the third
consecutive failure (`4000 * 2 = 8000 ≥ 5000`, clamped), not for the
first time on the fourth as claimed: the invocation lists of the first
three failing cycles are `[error], [error], [fail]`. -/
theorem fail_callback_on_third_failure :
    (failTrajectory pOpts c2Times c2Start 3).map Prod.snd =
      [[CallbackInvocation.onErrorCb], [CallbackInvocation.onErrorCb],
        [CallbackInvocation.onFailCb]] := by
  norm_num [failTrajectory, runPollStep, pOpts, c2Start]

/-- Claim C2 (amended): in the scenario `initialDelay = 1000ms`,
`maxDelay = 5000ms`, `factor = 2`, no jitter, with the operation failing
every cycle, `currentDelay` runs `1000, 2000, 4000` and is then clamped to
`5000`, and the fail callback fires for the first time on the third
consecutive failure — the cycle on which the clamp occurs (the clamped
`5000` being the fourth delay value), not before. -/
theorem fail_fires_at_clamp_scenario :
    c2Start.currentDelay = 1000 ∧
    (failTrajectory pOpts c2Times c2Start 3).map
        (fun p => (p.1.currentDelay, p.2)) =
      [(2000, [CallbackInvocation.onErrorCb]),
       (4000, [CallbackInvocation.onErrorCb]),
       (5000, [CallbackInvocation.onFailCb])] := by
  constructor
  · rfl
  · norm_num [failTrajectory, runPollStep, pOpts, c2Start]

/-- Control position of the `runPoll` loop between suspension points:
not running, awaiting `this.operation()`, or with a scheduled timeout. -/
inductive LoopPC where
  | idle : LoopPC
  | opInFlight : LoopPC
  | timerPending : LoopPC
deriving DecidableEq, Repr

/-- The scheduling-relevant state of one `AdaptivePoller` session: the
`polling` flag and the loop's control position. -/
structure LoopState where
  polling : Bool
  pc : LoopPC
deriving DecidableEq, Repr

/-- Observable scheduler events of the poller: `start()` returning (which
synchronously begins the first operation), an operation beginning via a
timer fire, a cycle's synchronous tail completing (branch plus
`scheduleNextPoll`), a timer fire exiting at the `runPoll` guard, and
`stop()` returning. -/
inductive LoopLabel where
  | startCall : LoopLabel
  | opStart : LoopLabel
  | cycleEnd : LoopLabel
  | guardExit : LoopLabel
  | stopRet : LoopLabel
deriving DecidableEq, Repr

/-- Small-step semantics of the `AdaptivePoller` loop of
`src/threading/adaptive-poller.ts`, one step per observable event
(deterministic given the event; `none` = the event cannot occur there):
`start()` flips `polling` on and begins the operation; a settling
operation always runs `scheduleNextPoll` (the `finally`); a firing timer
re-enters `runPoll`, which starts the operation iff `polling` still holds;
`stop()` returns synchronously after setting `polling := false` and
clearing a pending timeout — it does not wait for an in-flight
operation. -/
def stepFn (s : LoopState) : LoopLabel → Option LoopState
  | LoopLabel.startCall =>
    if s.polling = false ∧ s.pc = LoopPC.idle then
      some ⟨true, LoopPC.opInFlight⟩
    else none
  | LoopLabel.opStart =>
    if s.pc = LoopPC.timerPending ∧ s.polling = true then
      some ⟨s.polling, LoopPC.opInFlight⟩
    else none
  | LoopLabel.cycleEnd =>
    if s.pc = LoopPC.opInFlight then
      some ⟨s.polling, LoopPC.timerPending⟩
    else none
  | LoopLabel.guardExit =>
    if s.pc = LoopPC.timerPending ∧ s.polling = false then
      some ⟨s.polling, LoopPC.idle⟩
    else none
  | LoopLabel.stopRet =>
    some ⟨false, if s.pc = LoopPC.timerPending then LoopPC.idle else s.pc⟩

/-- Running a sequence of observable events from a state (`none` when some
event in the list cannot occur). -/
def runTrace : LoopState → List LoopLabel → Option LoopState
  | s, [] => some s
  | s, l :: ls => (stepFn s l).bind (fun s2 => runTrace s2 ls)

lemma runTrace_append (a : List LoopLabel) :
    ∀ (s : LoopState) (b : List LoopLabel),
      runTrace s (a ++ b) = (runTrace s a).bind (fun s2 => runTrace s2 b) := by
  induction a with
  | nil => intro s b; simp [runTrace]
  | cons l ls ih =>
    intro s b
    simp only [List.cons_append, runTrace]
    cases stepFn s l with
    | none => simp
    | some s2 => simp [ih s2 b]

lemma no_opStart_when_not_polling :
    ∀ (ls : List LoopLabel) (s sFinal : LoopState),
      runTrace s ls = some sFinal → s.polling = false →
      LoopLabel.startCall ∉ ls → LoopLabel.opStart ∉ ls := by
  intro ls
  induction ls with
  | nil => intro s sFinal _ _ _; simp
  | cons l rest ih =>
    intro s sFinal hrun hpol hnostart
    simp only [runTrace] at hrun
    obtain ⟨s2, hstep, hrest⟩ := Option.bind_eq_some.mp hrun
    have hl : l ≠ LoopLabel.startCall := fun he => hnostart (he ▸ List.mem_cons_self l rest)
    have hnostart2 : LoopLabel.startCall ∉ rest :=
      fun hm => hnostart (List.mem_cons_of_mem l hm)
    cases l with
    | startCall => exact absurd rfl hl
    | opStart =>
      simp [stepFn, hpol] at hstep
    | cycleEnd =>
      have hpol2 : s2.polling = false := by
        simp only [stepFn] at hstep
        by_cases hpc : s.pc = LoopPC.opInFlight
        · rw [if_pos hpc] at hstep
          cases hstep
          exact hpol
        · rw [if_neg hpc] at hstep
          exact Option.noConfusion hstep
      intro hmem
      rcases List.mem_cons.mp hmem with he | hm
      · exact LoopLabel.noConfusion he
      · exact ih s2 sFinal hrest hpol2 hnostart2 hm
    | guardExit =>
      have hpol2 : s2.polling = false := by
        simp only [stepFn] at hstep
        by_cases hpc : s.pc = LoopPC.timerPending ∧ s.polling = false
        · rw [if_pos hpc] at hstep
          cases hstep
          exact hpol
        · rw [if_neg hpc] at hstep
          exact Option.noConfusion hstep
      intro hmem
      rcases List.mem_cons.mp hmem with he | hm
      · exact LoopLabel.noConfusion he
      · exact ih s2 sFinal hrest hpol2 hnostart2 hm
    | stopRet =>
      have hpol2 : s2.polling = false := by
        simp only [stepFn] at hstep
        cases hstep
        rfl
      intro hmem
      rcases List.mem_cons.mp hmem with he | hm
      · exact LoopLabel.noConfusion he
      · exact ih s2 sFinal hrest hpol2 hnostart2 hm

/-- Counterexample to C5: `stop()` in `src/threading/adaptive-poller.ts`
is synchronous; the event sequence `start, stop-returns, cycle-completes`
is a valid run of the loop semantics: the in-flight cycle completes only
after `stop()` has already returned, so stop's completion is not observed
only after the loop has quiesced. -/
theorem stop_returns_before_cycle_completes :
    runTrace ⟨false, LoopPC.idle⟩
      [LoopLabel.startCall, LoopLabel.stopRet, LoopLabel.cycleEnd] =
      some ⟨false, LoopPC.timerPending⟩ := by
  decide

/-- Claim C5 (amended): after `stop()` returns, no further poll cycle
begins — in any valid event run, once `stop()` has returned and absent a
new `start()`, no operation start occurs: the next timer fire exits at the
`runPoll` guard.  `stop()` is however synchronous in this revision: it
does not wait for an in-flight cycle, which may still complete after
`stop()` has returned. -/
theorem no_cycle_starts_after_stop (s0 sFinal : LoopState)
    (pre post : List LoopLabel)
    (hrun : runTrace s0 (pre ++ LoopLabel.stopRet :: post) = some sFinal)
    (hnostart : LoopLabel.startCall ∉ post) :
    LoopLabel.opStart ∉ post := by
  rw [runTrace_append] at hrun
  obtain ⟨s1, _, hrest⟩ := Option.bind_eq_some.mp hrun
  simp only [runTrace] at hrest
  obtain ⟨s2, hstop, hpost⟩ := Option.bind_eq_some.mp hrest
  have hpol2 : s2.polling = false := by
    simp only [stepFn] at hstop
    cases hstop
    rfl
  exact no_opStart_when_not_polling post s2 sFinal hpost hpol2 hnostart

/-- Witness for amended C5: in the concrete run `start; stop-returns;
cycle-completes; guard-exit` the part after `stop()`'s return contains no
operation start. -/
theorem no_cycle_starts_after_stop_witness :
    runTrace ⟨false, LoopPC.idle⟩
        ([LoopLabel.startCall] ++ LoopLabel.stopRet ::
          [LoopLabel.cycleEnd, LoopLabel.guardExit]) =
      some ⟨false, LoopPC.idle⟩ ∧
    LoopLabel.opStart ∉ [LoopLabel.cycleEnd, LoopLabel.guardExit] := by
  refine ⟨by decide, ?_⟩
  exact no_cycle_starts_after_stop ⟨false, LoopPC.idle⟩ ⟨false, LoopPC.idle⟩
    [LoopLabel.startCall] [LoopLabel.cycleEnd, LoopLabel.guardExit]
    (by decide) (by decide)

end DashCore
